import Mathlib

/-!
Shallow embedding of the keystore subsystem of `ox` (`src/node_modules/ox/_esm/core/Keystore.js`)
together with the type declarations in `src/unnamed/part_001` (Keystore.d.ts).

Bytes (JS `Uint8Array`) are modelled as `List Nat` (each entry a byte value),
hex strings as `List Char`.  The external cryptographic primitives
(`Hash.keccak256`, `@noble/ciphers` AES block function, `@noble/hashes`
pbkdf2/scrypt) are not part of this repository: the spec declares them
external and assumed correct, so they appear as parameters collected in a
`Primitives` structure, and the properties the code relies on (output
lengths, byte-ness) are explicit hypotheses.  Randomness
(`Bytes.random`) is modelled by threading the CSPRNG draw as an explicit
argument.
-/

deriving instance DecidableEq for Except

namespace OxKeystore

/-- External crypto primitives used by Keystore.js (all from `@noble` packages,
outside this repository). `aesBlock key counter` is the AES-128 block
encryption used by CTR mode to produce one 16-byte keystream block;
`keccak256` is the MAC hash; `pbkdf2Hash pw salt c dkLen` and
`scryptHash pw salt n dkLen r p` are the password KDFs. -/
structure Primitives where
  keccak256 : List Nat → List Nat
  aesBlock : List Nat → List Nat → List Nat
  pbkdf2Hash : List Nat → List Nat → Nat → Nat → List Nat
  scryptHash : List Nat → List Nat → Nat → Nat → Nat → Nat → List Nat

/-! ### Byte/hex codec (ox `Bytes.js`, external ByteCodec, standard semantics) -/

/-- One lowercase hex digit, as produced by `Bytes.toHex` (code point
arithmetic: digits start at 48, lowercase letters at 97 = 87 + 10). -/
def hexDigit (d : Nat) : Char :=
  if d < 10 then Char.ofNat (48 + d) else Char.ofNat (87 + d)

/-- Value of a hex character, by code point, as in ox's `charCodeToBase16`
(`Bytes.fromHex` accepts both cases). -/
def hexCharVal (c : Char) : Option Nat :=
  let n := c.toNat
  if 48 ≤ n ∧ n ≤ 57 then some (n - 48)
  else if 97 ≤ n ∧ n ≤ 102 then some (n - 87)
  else if 65 ≤ n ∧ n ≤ 70 then some (n - 55)
  else none

/-- `Bytes.toHex(bs).slice(2)`: lowercase hex encoding without the `0x` prefix. -/
def hexOfBytes (bs : List Nat) : List Char :=
  bs.flatMap (fun b => [hexDigit (b / 16), hexDigit (b % 16)])

/-- `Bytes.toHex(bs)`: hex encoding with the `0x` prefix. -/
def hexOfBytes0x (bs : List Nat) : List Char :=
  '0' :: 'x' :: hexOfBytes bs

/-- `Bytes.fromHex`: parse a (prefix-stripped) hex string into bytes; `none`
models the exception ox throws on an odd-length or non-hex string. -/
def hexToBytes : List Char → Option (List Nat)
  | [] => some []
  | c1 :: c2 :: rest =>
    match hexCharVal c1, hexCharVal c2, hexToBytes rest with
    | some hi, some lo, some bs => some ((hi * 16 + lo) :: bs)
    | _, _, _ => none
  | [_] => none

/-- `Bytes.slice(value, start, end)` (JS `Uint8Array.slice` semantics). -/
def sliceBytes (bs : List Nat) (s e : Nat) : List Nat :=
  (bs.drop s).take (e - s)

/-! ### AES-CTR (`ctr` from `@noble/ciphers/aes`): big-endian 128-bit counter
starting at the IV; keystream XORed onto the data; encrypt = decrypt. -/

/-- Big-endian value of a byte string. -/
def beNat (bs : List Nat) : Nat :=
  bs.foldl (fun a b => a * 256 + b) 0

/-- Big-endian encoding of `n` into `len` bytes (truncating mod 256^len). -/
def natToBe : Nat → Nat → List Nat
  | 0, _ => []
  | len + 1, n => natToBe len (n / 256) ++ [n % 256]

/-- The `i`-th CTR counter block derived from the IV. -/
def counterBlock (iv : List Nat) (i : Nat) : List Nat :=
  natToBe 16 ((beNat iv + i) % 2 ^ 128)

/-- CTR keystream: `n` consecutive AES blocks of the counter sequence. -/
def ctrKeystream (P : Primitives) (key iv : List Nat) (n : Nat) : List Nat :=
  (List.range n).flatMap (fun i => P.aesBlock key (counterBlock iv i))

/-- `ctr(key, iv).encrypt` = `ctr(key, iv).decrypt`: XOR the data with the
keystream (truncated to the data's length). -/
def ctrProcess (P : Primitives) (key iv data : List Nat) : List Nat :=
  List.zipWith (fun a b => a ^^^ b) data
    (List.take data.length (ctrKeystream P key iv ((data.length + 15) / 16)))

/-! ### Data model (Keystore.d.ts, `src/unnamed/part_001`) -/

/-- `kdfparams` of a key: tagged per KDF, per the declared record shapes. -/
inductive Kdfparams where
  | pbkdf2Params (c : Nat) (dklen : Nat) (prf : List Char) (salt : List Char)
  | scryptParams (dklen : Nat) (n : Nat) (p : Nat) (r : Nat) (salt : List Char)
  deriving DecidableEq, Repr, Inhabited

/-- A derived key (`BaseKey`): `keyHex` models the `key: () => string`
accessor returning the hex-encoded 32-byte material. -/
structure DerivedKey where
  iv : List Nat
  keyHex : List Char
  kdfparams : Kdfparams
  kdf : List Char
  deriving DecidableEq, Repr, Inhabited

/-- `crypto.cipherparams` of a keystore record. -/
structure Cipherparams where
  iv : List Char
  deriving DecidableEq, Repr, Inhabited

/-- The `crypto` object of a keystore record. -/
structure CryptoRecord where
  cipher : List Char
  ciphertext : List Char
  cipherparams : Cipherparams
  kdf : List Char
  kdfparams : Kdfparams
  mac : List Char
  deriving DecidableEq, Repr, Inhabited

/-- A keystore record.  The TypeScript type pins `version` to the literal 3,
but at runtime JavaScript enforces nothing, so the field is a `Nat` here. -/
structure Keystore where
  crypto : CryptoRecord
  id : List Char
  version : Nat
  deriving DecidableEq, Repr, Inhabited

/-- Errors of the keystore operations: `invalidHex` models the exception
`Bytes.fromHex` throws on a malformed hex string; `corruptKeystore` is the
`new Error('corrupt keystore')` thrown on MAC mismatch. -/
inductive KeystoreError where
  | invalidHex
  | corruptKeystore
  deriving DecidableEq, Repr

/-- Output format option of `decrypt` (`as`, default `'Hex'`). -/
inductive OutputAs where
  | asHex
  | asBytes
  deriving DecidableEq, Repr

/-- Result of `decrypt`: hex string or raw bytes per the `as` option. -/
inductive DecryptOutput where
  | hexData (s : List Char)
  | byteData (bs : List Nat)
  deriving DecidableEq, Repr

/-! ### Operations (Keystore.js) -/

/-- `decrypt(keystore, key, { as })`, Keystore.js lines 36-49: parse the key
material, split it 0..16 / 16..32, recompute the Keccak-256 MAC over
`macKey ‖ ciphertext`, compare with the stored mac, and only then run CTR
with the key's iv. -/
def decrypt (P : Primitives) (keystore : Keystore) (key : DerivedKey)
    (as : OutputAs) : Except KeystoreError DecryptOutput :=
  match hexToBytes key.keyHex with
  | none => .error .invalidHex
  | some key_ =>
    let encKey := sliceBytes key_ 0 16
    let macKey := sliceBytes key_ 16 32
    match hexToBytes keystore.crypto.ciphertext with
    | none => .error .invalidHex
    | some ciphertext =>
      match hexToBytes keystore.crypto.mac with
      | none => .error .invalidHex
      | some storedMac =>
        if P.keccak256 (macKey ++ ciphertext) = storedMac then
          let data := ctrProcess P encKey key.iv ciphertext
          match as with
          | .asHex => .ok (.hexData (hexOfBytes0x data))
          | .asBytes => .ok (.byteData data)
        else .error .corruptKeystore

/-- `encrypt(privateKey, key, { id })`, Keystore.js lines 96-116: CTR-encrypt
the private key with `material[0:16]` and the key's iv, MAC the ciphertext
with `material[16:32]`, and assemble the version-3 record. -/
def encrypt (P : Primitives) (privateKey : List Nat) (key : DerivedKey)
    (id : List Char) : Except KeystoreError Keystore :=
  match hexToBytes key.keyHex with
  | none => .error .invalidHex
  | some key_ =>
    let encKey := sliceBytes key_ 0 16
    let macKey := sliceBytes key_ 16 32
    let ciphertext := ctrProcess P encKey key.iv privateKey
    let mac := P.keccak256 (macKey ++ ciphertext)
    .ok
      { crypto :=
          { cipher := "aes-128-ctr".toList
            ciphertext := hexOfBytes ciphertext
            cipherparams := { iv := hexOfBytes key.iv }
            kdf := key.kdf
            kdfparams := key.kdfparams
            mac := hexOfBytes mac }
        id := id
        version := 3 }

/-- Pre-key passed to `defineKey`: the caller-side key with a still-optional iv. -/
structure PreKey where
  iv : Option (List Nat)
  keyHex : List Char
  kdfparams : Kdfparams
  kdf : List Char

/-- `defineKey(key)`, Keystore.js lines 244-247: take the caller's iv verbatim
when present, otherwise use a fresh 16-byte random draw (`randIv`). -/
def defineKey (key : PreKey) (randIv : List Nat) : DerivedKey :=
  { iv := key.iv.getD randIv
    keyHex := key.keyHex
    kdfparams := key.kdfparams
    kdf := key.kdf }

/-- Options of `pbkdf2` / `pbkdf2Async`. -/
structure Pbkdf2Options where
  iv : Option (List Nat)
  iterations : Option Nat
  password : List Nat
  salt : Option (List Nat)

/-- `pbkdf2(options)`, Keystore.js lines 130-145.  `randSalt`/`randIv` are the
CSPRNG draws used when `salt`/`iv` are omitted. -/
def pbkdf2 (P : Primitives) (options : Pbkdf2Options)
    (randSalt randIv : List Nat) : DerivedKey :=
  let iterations := options.iterations.getD 262144
  let salt := options.salt.getD randSalt
  let key := hexOfBytes (P.pbkdf2Hash options.password salt iterations 32)
  defineKey
    { iv := options.iv
      keyHex := key
      kdfparams := .pbkdf2Params iterations 32 "hmac-sha256".toList
        (hexOfBytes salt)
      kdf := "pbkdf2".toList }
    randIv

/-- `pbkdf2Async(options)`, Keystore.js lines 159-177: same computation, only
the scheduling of the noble KDF differs (`pbkdf2Async_noble` computes the
same function as `pbkdf2_noble`). -/
def pbkdf2Async (P : Primitives) (options : Pbkdf2Options)
    (randSalt randIv : List Nat) : DerivedKey :=
  let iterations := options.iterations.getD 262144
  let salt := options.salt.getD randSalt
  let key := hexOfBytes (P.pbkdf2Hash options.password salt iterations 32)
  defineKey
    { iv := options.iv
      keyHex := key
      kdfparams := .pbkdf2Params iterations 32 "hmac-sha256".toList
        (hexOfBytes salt)
      kdf := "pbkdf2".toList }
    randIv

/-- Options of `scrypt` / `scryptAsync`. -/
structure ScryptOptions where
  iv : Option (List Nat)
  n : Option Nat
  password : List Nat
  salt : Option (List Nat)

/-- `scrypt(options)`, Keystore.js lines 191-209: `p = 8` and `r = 1` are
local constants, not options. -/
def scrypt (P : Primitives) (options : ScryptOptions)
    (randSalt randIv : List Nat) : DerivedKey :=
  let n := options.n.getD 262144
  let p := 8
  let r := 1
  let salt := options.salt.getD randSalt
  let key := hexOfBytes (P.scryptHash options.password salt n 32 r p)
  defineKey
    { iv := options.iv
      keyHex := key
      kdfparams := .scryptParams 32 n p r (hexOfBytes salt)
      kdf := "scrypt".toList }
    randIv

/-- `scryptAsync(options)`, Keystore.js lines 223-241: same computation as
`scrypt`, asynchronous scheduling only. -/
def scryptAsync (P : Primitives) (options : ScryptOptions)
    (randSalt randIv : List Nat) : DerivedKey :=
  let n := options.n.getD 262144
  let p := 8
  let r := 1
  let salt := options.salt.getD randSalt
  let key := hexOfBytes (P.scryptHash options.password salt n 32 r p)
  defineKey
    { iv := options.iv
      keyHex := key
      kdfparams := .scryptParams 32 n p r (hexOfBytes salt)
      kdf := "scrypt".toList }
    randIv

/-! ### Assumed properties of the external primitives (spec: "assumed correct") -/

/-- The AES block function maps a byte-valued counter block to 16 bytes. -/
def BlockGood (g : List Nat → List Nat → List Nat) : Prop :=
  ∀ k c, (∀ b ∈ c, b < 256) → (g k c).length = 16 ∧ ∀ b ∈ g k c, b < 256

/-- Keccak-256 maps byte input to a 32-byte digest. -/
def HashGood (f : List Nat → List Nat) : Prop :=
  ∀ bs, (∀ b ∈ bs, b < 256) → (f bs).length = 32 ∧ ∀ b ∈ f bs, b < 256

/-- The pbkdf2 primitive honours `dkLen = 32` with byte output. -/
def KdfGood32 (f : List Nat → List Nat → Nat → Nat → List Nat) : Prop :=
  ∀ pw s c, (f pw s c 32).length = 32 ∧ ∀ b ∈ f pw s c 32, b < 256

/-- The scrypt primitive honours `dkLen = 32` with byte output. -/
def ScryptGood32 (f : List Nat → List Nat → Nat → Nat → Nat → Nat → List Nat) :
    Prop :=
  ∀ pw s n r p, (f pw s n 32 r p).length = 32 ∧ ∀ b ∈ f pw s n 32 r p, b < 256

/-- Concrete stand-in primitives used to evaluate witnesses: structurally
well-behaved functions with the right output lengths (no cryptographic
strength intended). -/
def mockP : Primitives where
  keccak256 := fun bs => (bs ++ List.replicate 32 0).take 32
  aesBlock := fun _ c => (c ++ List.replicate 16 0).take 16
  pbkdf2Hash := fun _ _ _ dkLen => List.replicate dkLen 0
  scryptHash := fun _ _ _ dkLen _ _ => List.replicate dkLen 0

theorem mockP_hash_good : HashGood mockP.keccak256 := by
  intro bs h
  constructor
  · show ((bs ++ List.replicate 32 0).take 32).length = 32
    simp
  · intro b hb
    replace hb : b ∈ (bs ++ List.replicate 32 0).take 32 := hb
    rcases List.mem_append.1 (List.mem_of_mem_take hb) with h1 | h2
    · exact h b h1
    · have := List.eq_of_mem_replicate h2
      omega

theorem mockP_block_good : BlockGood mockP.aesBlock := by
  intro k c h
  constructor
  · show ((c ++ List.replicate 16 0).take 16).length = 16
    simp
  · intro b hb
    replace hb : b ∈ (c ++ List.replicate 16 0).take 16 := hb
    rcases List.mem_append.1 (List.mem_of_mem_take hb) with h1 | h2
    · exact h b h1
    · have := List.eq_of_mem_replicate h2
      omega

theorem mockP_kdf_good : KdfGood32 mockP.pbkdf2Hash := by
  intro pw s c
  refine ⟨by simp [mockP], fun b hb => ?_⟩
  replace hb : b ∈ List.replicate 32 0 := hb
  have := List.eq_of_mem_replicate hb
  omega

theorem mockP_scrypt_good : ScryptGood32 mockP.scryptHash := by
  intro pw s n r p
  refine ⟨by simp [mockP], fun b hb => ?_⟩
  replace hb : b ∈ List.replicate 32 0 := hb
  have := List.eq_of_mem_replicate hb
  omega

/-! ### Hex codec lemmas -/

theorem hexCharVal_hexDigit (d : Nat) (h : d < 16) :
    hexCharVal (hexDigit d) = some d := by
  interval_cases d <;> decide

theorem hexCharVal_lt (c : Char) (d : Nat) (h : hexCharVal c = some d) :
    d < 16 := by
  unfold hexCharVal at h
  simp only at h
  split at h <;> (try split at h) <;> (try split at h) <;> simp_all <;> omega

theorem hexOfBytes_cons (b : Nat) (bs : List Nat) :
    hexOfBytes (b :: bs) =
      hexDigit (b / 16) :: hexDigit (b % 16) :: hexOfBytes bs := by
  simp [hexOfBytes]

theorem hexToBytes_hexOfBytes (bs : List Nat) (h : ∀ b ∈ bs, b < 256) :
    hexToBytes (hexOfBytes bs) = some bs := by
  induction bs with
  | nil => rfl
  | cons b bs ih =>
    have hb : b < 256 := h b (List.mem_cons_self _ _)
    have h1 : b / 16 < 16 := by omega
    have h2 : b % 16 < 16 := by omega
    rw [hexOfBytes_cons, hexToBytes, hexCharVal_hexDigit _ h1,
      hexCharVal_hexDigit _ h2, ih (fun x hx => h x (List.mem_cons_of_mem _ hx))]
    have hdm : b / 16 * 16 + b % 16 = b := by omega
    simp [hdm]

theorem length_hexOfBytes (bs : List Nat) :
    (hexOfBytes bs).length = 2 * bs.length := by
  induction bs with
  | nil => rfl
  | cons b bs ih => rw [hexOfBytes_cons]; simp [ih]; omega

/-- The lowercase hex alphabet. -/
def lowerHexChars : List Char := "0123456789abcdef".toList

theorem hexDigit_mem_lowerHexChars (d : Nat) (h : d < 16) :
    hexDigit d ∈ lowerHexChars := by
  interval_cases d <;> decide

theorem mem_hexOfBytes_lower (bs : List Nat) (h : ∀ b ∈ bs, b < 256) :
    ∀ c ∈ hexOfBytes bs, c ∈ lowerHexChars := by
  induction bs with
  | nil => simp [hexOfBytes]
  | cons b bs ih =>
    have hb : b < 256 := h b (List.mem_cons_self _ _)
    rw [hexOfBytes_cons]
    intro c hc
    rcases hc with _ | ⟨_, hc⟩
    · exact hexDigit_mem_lowerHexChars _ (by omega)
    · rcases hc with _ | ⟨_, hc⟩
      · exact hexDigit_mem_lowerHexChars _ (by omega)
      · exact ih (fun x hx => h x (List.mem_cons_of_mem _ hx)) c hc

theorem hexToBytes_bytes_lt (s : List Char) (bs : List Nat)
    (h : hexToBytes s = some bs) : ∀ b ∈ bs, b < 256 := by
  induction s using hexToBytes.induct generalizing bs with
  | case1 => rw [hexToBytes] at h; cases h; simp
  | case2 c1 c2 rest hi lo bs' h1 h2 h3 ih =>
    rw [hexToBytes, h3, h2, h1] at h
    cases h
    intro b hb
    rcases List.mem_cons.1 hb with hb | hb
    · have i1 := hexCharVal_lt c1 hi h3
      have i2 := hexCharVal_lt c2 lo h2
      omega
    · exact ih bs' h1 b hb
  | case3 c1 c2 rest hm ih =>
    rw [hexToBytes] at h
    split at h
    · next hi lo bs' e1 e2 e3 => exact (hm hi lo bs' e1 e2 e3).elim
    · cases h
  | case4 c => rw [hexToBytes] at h; cases h

theorem length_hexToBytes (s : List Char) (bs : List Nat)
    (h : hexToBytes s = some bs) : s.length = 2 * bs.length := by
  induction s using hexToBytes.induct generalizing bs with
  | case1 => rw [hexToBytes] at h; cases h; rfl
  | case2 c1 c2 rest hi lo bs' h1 h2 h3 ih =>
    rw [hexToBytes, h3, h2, h1] at h
    cases h
    have := ih bs' h1
    simp only [List.length_cons, this]
    omega
  | case3 c1 c2 rest hm ih =>
    rw [hexToBytes] at h
    split at h
    · next hi lo bs' e1 e2 e3 => exact (hm hi lo bs' e1 e2 e3).elim
    · cases h
  | case4 c => rw [hexToBytes] at h; cases h

/-! ### CTR lemmas -/

theorem natToBe_length (len : Nat) : ∀ n, (natToBe len n).length = len := by
  induction len with
  | zero => intro n; rfl
  | succ l ih => intro n; simp [natToBe, ih]

theorem natToBe_lt (len : Nat) : ∀ n, ∀ b ∈ natToBe len n, b < 256 := by
  induction len with
  | zero => intro n b hb; cases hb
  | succ l ih =>
    intro n b hb
    rw [natToBe] at hb
    rcases List.mem_append.1 hb with h1 | h2
    · exact ih _ b h1
    · simp at h2
      omega

theorem counterBlock_lt (iv : List Nat) (i : Nat) :
    ∀ b ∈ counterBlock iv i, b < 256 :=
  natToBe_lt 16 _

theorem ctrKeystream_length (P : Primitives) (hA : BlockGood P.aesBlock)
    (k iv : List Nat) (n : Nat) : (ctrKeystream P k iv n).length = 16 * n := by
  induction n with
  | zero => rfl
  | succ m ih =>
    rw [ctrKeystream, List.range_succ, List.flatMap_append]
    rw [ctrKeystream] at ih
    simp only [List.length_append, ih, List.flatMap_cons, List.flatMap_nil,
      List.append_nil]
    rw [(hA k (counterBlock iv m) (counterBlock_lt iv m)).1]
    omega

theorem ctrKeystream_lt (P : Primitives) (hA : BlockGood P.aesBlock)
    (k iv : List Nat) (n : Nat) : ∀ b ∈ ctrKeystream P k iv n, b < 256 := by
  intro b hb
  rw [ctrKeystream] at hb
  rcases List.mem_flatMap.1 hb with ⟨i, _, hbi⟩
  exact (hA k (counterBlock iv i) (counterBlock_lt iv i)).2 b hbi

theorem zipWith_xor_lt (xs : List Nat) :
    ∀ ks, (∀ x ∈ xs, x < 256) → (∀ y ∈ ks, y < 256) →
      ∀ b ∈ List.zipWith (fun a b => a ^^^ b) xs ks, b < 256 := by
  induction xs with
  | nil => intro ks _ _ b hb; cases hb
  | cons x xs ih =>
    intro ks hx hk b hb
    cases ks with
    | nil => cases hb
    | cons k ks =>
      rw [List.zipWith_cons_cons] at hb
      rcases List.mem_cons.1 hb with hb | hb
      · have h28 : (2 : Nat) ^ 8 = 256 := rfl
        have hxk : x ^^^ k < 2 ^ 8 :=
          Nat.xor_lt_two_pow (by rw [h28]; exact hx x (List.mem_cons_self _ _))
            (by rw [h28]; exact hk k (List.mem_cons_self _ _))
        have hb' : b = x ^^^ k := hb
        omega
      · exact ih ks (fun a ha => hx a (List.mem_cons_of_mem _ ha))
          (fun a ha => hk a (List.mem_cons_of_mem _ ha)) b hb

theorem zipWith_xor_xor (xs : List Nat) :
    ∀ ks, xs.length ≤ ks.length →
      List.zipWith (fun a b => a ^^^ b)
        (List.zipWith (fun a b => a ^^^ b) xs ks) ks = xs := by
  induction xs with
  | nil => intro ks _; simp
  | cons x xs ih =>
    intro ks hk
    cases ks with
    | nil => simp at hk
    | cons k ks =>
      rw [List.zipWith_cons_cons, List.zipWith_cons_cons,
        Nat.xor_cancel_right, ih ks (by simpa using hk)]

theorem length_ctrProcess (P : Primitives) (hA : BlockGood P.aesBlock)
    (k iv data : List Nat) : (ctrProcess P k iv data).length = data.length := by
  rw [ctrProcess]
  simp only [List.length_zipWith, List.length_take]
  rw [ctrKeystream_length P hA]
  omega

theorem ctrProcess_lt (P : Primitives) (hA : BlockGood P.aesBlock)
    (k iv data : List Nat) (hd : ∀ b ∈ data, b < 256) :
    ∀ b ∈ ctrProcess P k iv data, b < 256 := by
  rw [ctrProcess]
  exact zipWith_xor_lt data _ hd
    (fun y hy => ctrKeystream_lt P hA k iv _ y (List.mem_of_mem_take hy))

theorem ctrProcess_ctrProcess (P : Primitives) (hA : BlockGood P.aesBlock)
    (k iv data : List Nat) :
    ctrProcess P k iv (ctrProcess P k iv data) = data := by
  have hlen := length_ctrProcess P hA k iv data
  conv_lhs => rw [ctrProcess]
  rw [hlen]
  conv_lhs => rw [ctrProcess]
  apply zipWith_xor_xor
  simp only [List.length_take]
  rw [ctrKeystream_length P hA]
  omega

/-! ### Small auxiliary lemmas -/

theorem sliceBytes_subset (bs : List Nat) (s e : Nat) :
    ∀ b ∈ sliceBytes bs s e, b ∈ bs := fun _ hb =>
  List.mem_of_mem_drop (List.mem_of_mem_take hb)

/-! ### Concrete fixtures used by witnesses and counterexamples -/

/-- A concrete derived key: 32-byte material `0,1,…,31`, all-zero 16-byte iv. -/
def wKey : DerivedKey :=
  { iv := List.replicate 16 0
    keyHex := hexOfBytes (List.range 32)
    kdfparams := .pbkdf2Params 2 32 "hmac-sha256".toList
      (hexOfBytes (List.replicate 32 0))
    kdf := "pbkdf2".toList }

/-- The keystore produced by encrypting `[1, 2, 3]` under `wKey` with the
mock primitives. -/
def wRecord : Keystore := (encrypt mockP [1, 2, 3] wKey []).toOption.getD default

/-- `wRecord` with its mac field overwritten by an unrelated 32-byte value. -/
def wBadMacRecord : Keystore :=
  { wRecord with crypto.mac := hexOfBytes (List.replicate 32 7) }

/-! ### Claims -/

/-- Shared MAC-gate facts about `decrypt`, used by several claim proofs:
on parsed inputs, a digest/stored-mac mismatch yields the corrupt-keystore
error, and an `ok` result forces digest equality. -/
theorem decrypt_mac_cases (P : Primitives) (ks : Keystore) (key : DerivedKey)
    (as : OutputAs) (km ct sm : List Nat)
    (hk : hexToBytes key.keyHex = some km)
    (hc : hexToBytes ks.crypto.ciphertext = some ct)
    (hm : hexToBytes ks.crypto.mac = some sm) :
    (P.keccak256 (sliceBytes km 16 32 ++ ct) ≠ sm →
      decrypt P ks key as = .error .corruptKeystore) ∧
    (∀ out, decrypt P ks key as = .ok out →
      P.keccak256 (sliceBytes km 16 32 ++ ct) = sm) := by
  unfold decrypt
  rw [hk, hc, hm]
  constructor
  · intro hne
    simp only [if_neg hne]
  · intro out hout
    by_contra hne
    simp only [if_neg hne] at hout
    cases hout

/-- C1: `decrypt` recomputes the MAC as Keccak-256 over `macKey ‖ ciphertext`
(with `macKey = material[16:32]`); if it differs from the record's mac it
fails with the corrupt-keystore error, and it returns output only when the
recomputed MAC equals the stored one — the error path carries no bytes. -/
theorem C1_decrypt_mac_gate (P : Primitives) (ks : Keystore) (key : DerivedKey)
    (as : OutputAs) (km ct sm : List Nat)
    (hk : hexToBytes key.keyHex = some km)
    (hc : hexToBytes ks.crypto.ciphertext = some ct)
    (hm : hexToBytes ks.crypto.mac = some sm) :
    (P.keccak256 (sliceBytes km 16 32 ++ ct) ≠ sm →
      decrypt P ks key as = .error .corruptKeystore) ∧
    (∀ out, decrypt P ks key as = .ok out →
      P.keccak256 (sliceBytes km 16 32 ++ ct) = sm) :=
  decrypt_mac_cases P ks key as km ct sm hk hc hm

/-- C1 witness: on a record whose stored mac differs from the recomputed one,
`decrypt` fails with the corrupt-keystore error. -/
theorem C1_witness :
    decrypt mockP wBadMacRecord wKey .asBytes = .error .corruptKeystore :=
  (C1_decrypt_mac_gate mockP wBadMacRecord wKey .asBytes (List.range 32)
    [1, 2, 3] (List.replicate 32 7) (by decide) (by decide) (by decide)).1
    (by decide)

/-- C2: round-trip — decrypting the keystore produced by `encrypt pk key`
with the same derived key returns exactly `pk`: the raw bytes under the
`Bytes` output format, and its (0x-prefixed) hex encoding under the default
`Hex` format. -/
theorem C2_roundtrip (P : Primitives) (pk : List Nat) (key : DerivedKey)
    (id : List Char) (km : List Nat) (ks : Keystore)
    (hk : hexToBytes key.keyHex = some km)
    (hkb : ∀ b ∈ km, b < 256)
    (hpk : ∀ b ∈ pk, b < 256)
    (hA : BlockGood P.aesBlock)
    (hH : HashGood P.keccak256)
    (henc : encrypt P pk key id = .ok ks) :
    decrypt P ks key .asBytes = .ok (.byteData pk) ∧
    decrypt P ks key .asHex = .ok (.hexData (hexOfBytes0x pk)) := by
  unfold encrypt at henc
  rw [hk] at henc
  cases henc
  have hct : ∀ b ∈ ctrProcess P (sliceBytes km 0 16) key.iv pk, b < 256 :=
    ctrProcess_lt P hA _ _ pk hpk
  have hmacin :
      ∀ b ∈ sliceBytes km 16 32 ++ ctrProcess P (sliceBytes km 0 16) key.iv pk,
        b < 256 := by
    intro b hb
    rcases List.mem_append.1 hb with h1 | h2
    · exact hkb b (sliceBytes_subset km 16 32 b h1)
    · exact hct b h2
  have hmac := (hH _ hmacin).2
  unfold decrypt
  rw [hk]
  simp only
  rw [hexToBytes_hexOfBytes _ hct, hexToBytes_hexOfBytes _ hmac]
  simp only [if_pos rfl]
  rw [ctrProcess_ctrProcess P hA _ key.iv pk]
  exact ⟨rfl, rfl⟩

/-- C2 witness: concrete round trip through `encrypt` then `decrypt`. -/
theorem C2_witness :
    decrypt mockP wRecord wKey .asBytes = .ok (.byteData [1, 2, 3]) ∧
    decrypt mockP wRecord wKey .asHex = .ok (.hexData (hexOfBytes0x [1, 2, 3])) :=
  C2_roundtrip mockP [1, 2, 3] wKey [] (List.range 32) wRecord (by decide)
    (by decide) (by decide) mockP_block_good mockP_hash_good (by decide)

/-- C10: `decrypt` never reads the record's `crypto.cipherparams.iv` — its
result is invariant under that field — and on success the plaintext is the
CTR transform keyed by the iv carried by the supplied derived key. -/
theorem C10_decrypt_ignores_record_iv (P : Primitives) (ks : Keystore)
    (key : DerivedKey) (as : OutputAs) (iv1 iv2 : List Char)
    (km ct sm : List Nat)
    (hk : hexToBytes key.keyHex = some km)
    (hc : hexToBytes ks.crypto.ciphertext = some ct)
    (hm : hexToBytes ks.crypto.mac = some sm)
    (hmac : P.keccak256 (sliceBytes km 16 32 ++ ct) = sm) :
    decrypt P { ks with crypto.cipherparams := ⟨iv1⟩ } key as =
      decrypt P { ks with crypto.cipherparams := ⟨iv2⟩ } key as ∧
    decrypt P ks key .asBytes =
      .ok (.byteData (ctrProcess P (sliceBytes km 0 16) key.iv ct)) := by
  constructor
  · rfl
  · unfold decrypt
    rw [hk, hc, hm]
    simp only [if_pos hmac]

/-- C10 witness: changing the stored iv leaves `decrypt` unchanged, and the
plaintext comes from CTR under the key's iv. -/
theorem C10_witness :
    decrypt mockP { wRecord with crypto.cipherparams := ⟨[]⟩ } wKey .asBytes =
      decrypt mockP { wRecord with crypto.cipherparams := ⟨['f', 'f']⟩ } wKey
        .asBytes ∧
    decrypt mockP wRecord wKey .asBytes =
      .ok (.byteData
        (ctrProcess mockP (sliceBytes (List.range 32) 0 16) wKey.iv [1, 2, 3])) :=
  C10_decrypt_ignores_record_iv mockP wRecord wKey .asBytes [] ['f', 'f']
    (List.range 32) [1, 2, 3]
    (mockP.keccak256 (sliceBytes (List.range 32) 16 32 ++ [1, 2, 3]))
    (by decide) (by decide) (by decide) (by decide)

/-- `wRecord` with its version field set to 4 (everything else unchanged). -/
def C3ceRecord : Keystore := { wRecord with version := 4 }

/-- C3 counterexample: a keystore whose version is 4 — an unsupported version
per the claim — is decrypted successfully, with no malformed-record error:
`decrypt` performs no structural validation of the version field. -/
theorem C3_counterexample :
    C3ceRecord.version = 4 ∧
    decrypt mockP C3ceRecord wKey .asBytes = .ok (.byteData [1, 2, 3]) := by
  decide

/-- C3 (amended): `decrypt` fails immediately with a hex-decode error when
the ciphertext field (or, ciphertext parsing fine, the mac field) is not a
valid hex string, before any MAC check or decryption; a hex-valid mac of the
wrong length (≠ 32 bytes) is reported as corrupt keystore, not as a
malformed record; and `decrypt` performs no validation at all of the
`version`, `crypto.cipher`, `crypto.kdf`, `crypto.kdfparams`,
`crypto.cipherparams` or `id` fields — its result is invariant under them,
so e.g. a version ≠ 3 record with a verifying MAC decrypts successfully. -/
theorem C3_decrypt_validation (P : Primitives) (ks : Keystore)
    (key : DerivedKey) (as : OutputAs) (km : List Nat) (v : Nat)
    (c1 k1 : List Char) (kp1 : Kdfparams) (iv1 : List Char) (id1 : List Char)
    (hk : hexToBytes key.keyHex = some km)
    (hkb : ∀ b ∈ km, b < 256)
    (hH : HashGood P.keccak256) :
    (hexToBytes ks.crypto.ciphertext = none →
      decrypt P ks key as = .error .invalidHex) ∧
    (∀ ct, hexToBytes ks.crypto.ciphertext = some ct →
      hexToBytes ks.crypto.mac = none →
      decrypt P ks key as = .error .invalidHex) ∧
    (∀ ct sm, hexToBytes ks.crypto.ciphertext = some ct →
      hexToBytes ks.crypto.mac = some sm →
      sm.length ≠ 32 →
      decrypt P ks key as = .error .corruptKeystore) ∧
    decrypt P
        { ks with
          version := v
          id := id1
          crypto.cipher := c1
          crypto.kdf := k1
          crypto.kdfparams := kp1
          crypto.cipherparams := ⟨iv1⟩ } key as =
      decrypt P ks key as := by
  refine ⟨?_, ?_, ?_, rfl⟩
  · intro hc
    unfold decrypt
    rw [hk, hc]
  · intro ct hc hm
    unfold decrypt
    rw [hk, hc, hm]
  · intro ct sm hc hm hlen
    have hctb := hexToBytes_bytes_lt _ _ hc
    have hmacin : ∀ b ∈ sliceBytes km 16 32 ++ ct, b < 256 := by
      intro b hb
      rcases List.mem_append.1 hb with h1 | h2
      · exact hkb b (sliceBytes_subset km 16 32 b h1)
      · exact hctb b h2
    have h32 := (hH _ hmacin).1
    have hne : P.keccak256 (sliceBytes km 16 32 ++ ct) ≠ sm :=
      fun he => hlen (he ▸ h32)
    unfold decrypt
    rw [hk, hc, hm]
    simp only [if_neg hne]

/-- C3 witness: concrete malformed hex fields are rejected with the hex error,
and the ignored fields do not change the result. -/
theorem C3_witness :
    decrypt mockP { wRecord with crypto.ciphertext := ['z', 'z'] } wKey
        .asBytes = .error .invalidHex ∧
    decrypt mockP { wRecord with crypto.mac := ['0'] } wKey .asBytes =
        .error .invalidHex ∧
    decrypt mockP { wRecord with crypto.mac := ['0', '7'] } wKey .asBytes =
        .error .corruptKeystore ∧
    decrypt mockP
        { ({ wRecord with crypto.mac := ['0'] } : Keystore) with
          version := 7
          id := ['q']
          crypto.cipher := []
          crypto.kdf := []
          crypto.kdfparams := .scryptParams 0 0 0 0 []
          crypto.cipherparams := ⟨[]⟩ } wKey .asBytes =
      decrypt mockP { wRecord with crypto.mac := ['0'] } wKey .asBytes := by
  have h1 := C3_decrypt_validation mockP
    { wRecord with crypto.ciphertext := ['z', 'z'] } wKey .asBytes
    (List.range 32) 7 [] [] (.scryptParams 0 0 0 0 []) [] ['q'] (by decide)
    (by decide) mockP_hash_good
  have h2 := C3_decrypt_validation mockP
    { wRecord with crypto.mac := ['0'] } wKey .asBytes
    (List.range 32) 7 [] [] (.scryptParams 0 0 0 0 []) [] ['q'] (by decide)
    (by decide) mockP_hash_good
  have h3 := C3_decrypt_validation mockP
    { wRecord with crypto.mac := ['0', '7'] } wKey .asBytes
    (List.range 32) 7 [] [] (.scryptParams 0 0 0 0 []) [] ['q'] (by decide)
    (by decide) mockP_hash_good
  exact ⟨h1.1 (by decide), h2.2.1 [1, 2, 3] (by decide) (by decide),
    h3.2.2.1 [1, 2, 3] [7] (by decide) (by decide) (by decide), h2.2.2.2⟩

/-- C4: the record produced by `encrypt` has `crypto.cipher = 'aes-128-ctr'`
and `version = 3` literally; `crypto.kdf` and `crypto.kdfparams` are exactly
those of the derived key; ciphertext, iv and mac are lowercase hex with no
`0x` prefix; ciphertext encodes exactly `pk.length` bytes (CTR preserves
length) and mac encodes exactly 32 bytes. -/
theorem C4_encrypt_record_shape (P : Primitives) (pk : List Nat)
    (key : DerivedKey) (id : List Char) (km : List Nat) (ks : Keystore)
    (hk : hexToBytes key.keyHex = some km)
    (hkb : ∀ b ∈ km, b < 256)
    (hpk : ∀ b ∈ pk, b < 256)
    (hiv : ∀ b ∈ key.iv, b < 256)
    (hA : BlockGood P.aesBlock)
    (hH : HashGood P.keccak256)
    (henc : encrypt P pk key id = .ok ks) :
    ks.crypto.cipher = "aes-128-ctr".toList ∧
    ks.version = 3 ∧
    ks.crypto.kdf = key.kdf ∧
    ks.crypto.kdfparams = key.kdfparams ∧
    (∀ c ∈ ks.crypto.ciphertext, c ∈ lowerHexChars) ∧
    (∀ c ∈ ks.crypto.cipherparams.iv, c ∈ lowerHexChars) ∧
    (∀ c ∈ ks.crypto.mac, c ∈ lowerHexChars) ∧
    ks.crypto.ciphertext.length = 2 * pk.length ∧
    ks.crypto.mac.length = 2 * 32 := by
  unfold encrypt at henc
  rw [hk] at henc
  cases henc
  have hct : ∀ b ∈ ctrProcess P (sliceBytes km 0 16) key.iv pk, b < 256 :=
    ctrProcess_lt P hA _ _ pk hpk
  have hmacin :
      ∀ b ∈ sliceBytes km 16 32 ++ ctrProcess P (sliceBytes km 0 16) key.iv pk,
        b < 256 := by
    intro b hb
    rcases List.mem_append.1 hb with h1 | h2
    · exact hkb b (sliceBytes_subset km 16 32 b h1)
    · exact hct b h2
  refine ⟨rfl, rfl, rfl, rfl, mem_hexOfBytes_lower _ hct,
    mem_hexOfBytes_lower _ hiv, mem_hexOfBytes_lower _ (hH _ hmacin).2, ?_, ?_⟩
  · rw [length_hexOfBytes, length_ctrProcess P hA]
  · rw [length_hexOfBytes, (hH _ hmacin).1]

/-- C4 witness: concrete record shape. -/
theorem C4_witness :
    wRecord.crypto.cipher = "aes-128-ctr".toList ∧
    wRecord.version = 3 ∧
    wRecord.crypto.kdf = wKey.kdf ∧
    wRecord.crypto.kdfparams = wKey.kdfparams ∧
    wRecord.crypto.ciphertext.length = 2 * ([1, 2, 3] : List Nat).length ∧
    wRecord.crypto.mac.length = 2 * 32 := by
  have h := C4_encrypt_record_shape mockP [1, 2, 3] wKey [] (List.range 32)
    wRecord (by decide) (by decide) (by decide) (by decide) mockP_block_good
    mockP_hash_good (by decide)
  exact ⟨h.1, h.2.1, h.2.2.1, h.2.2.2.1, h.2.2.2.2.2.2.2.1, h.2.2.2.2.2.2.2.2⟩

/-- C5: `encrypt` and `decrypt` split the 32-byte material identically into
`cipherKey = material[0:16]` and `macKey = material[16:32]`, and both compute
the MAC as Keccak-256 of `macKey ‖ ciphertext` (macKey first), a 32-byte
digest: the encrypt-side ciphertext/mac fields are exactly those values, a
decrypt succeeds precisely when the stored mac equals that digest, and the
decrypted plaintext uses `material[0:16]` as the cipher key. -/
theorem C5_key_split_and_mac (P : Primitives) (pk : List Nat)
    (key : DerivedKey) (id : List Char) (km : List Nat) (ks : Keystore)
    (hk : hexToBytes key.keyHex = some km)
    (hkb : ∀ b ∈ km, b < 256)
    (hpk : ∀ b ∈ pk, b < 256)
    (hA : BlockGood P.aesBlock)
    (hH : HashGood P.keccak256)
    (henc : encrypt P pk key id = .ok ks) :
    ks.crypto.ciphertext =
      hexOfBytes (ctrProcess P (sliceBytes km 0 16) key.iv pk) ∧
    ks.crypto.mac =
      hexOfBytes (P.keccak256 (sliceBytes km 16 32 ++
        ctrProcess P (sliceBytes km 0 16) key.iv pk)) ∧
    (P.keccak256 (sliceBytes km 16 32 ++
      ctrProcess P (sliceBytes km 0 16) key.iv pk)).length = 32 ∧
    (∀ (ks' : Keystore) (key' : DerivedKey) (km' ct sm : List Nat)
      (as : OutputAs),
      hexToBytes key'.keyHex = some km' →
      hexToBytes ks'.crypto.ciphertext = some ct →
      hexToBytes ks'.crypto.mac = some sm →
      (decrypt P ks' key' as = .error .corruptKeystore ↔
        P.keccak256 (sliceBytes km' 16 32 ++ ct) ≠ sm) ∧
      (P.keccak256 (sliceBytes km' 16 32 ++ ct) = sm →
        decrypt P ks' key' .asBytes =
          .ok (.byteData (ctrProcess P (sliceBytes km' 0 16) key'.iv ct)))) := by
  unfold encrypt at henc
  rw [hk] at henc
  cases henc
  have hct : ∀ b ∈ ctrProcess P (sliceBytes km 0 16) key.iv pk, b < 256 :=
    ctrProcess_lt P hA _ _ pk hpk
  have hmacin :
      ∀ b ∈ sliceBytes km 16 32 ++ ctrProcess P (sliceBytes km 0 16) key.iv pk,
        b < 256 := by
    intro b hb
    rcases List.mem_append.1 hb with h1 | h2
    · exact hkb b (sliceBytes_subset km 16 32 b h1)
    · exact hct b h2
  refine ⟨rfl, rfl, (hH _ hmacin).1, ?_⟩
  intro ks' key' km' ct sm as hk' hc' hm'
  constructor
  · constructor
    · intro herr hmaceq
      have := (decrypt_mac_cases P ks' key' as km' ct sm hk' hc' hm').2
      unfold decrypt at herr
      rw [hk', hc', hm'] at herr
      simp only [if_pos hmaceq] at herr
      revert herr
      cases as <;> simp
    · intro hne
      exact (decrypt_mac_cases P ks' key' as km' ct sm hk' hc' hm').1 hne
  · intro hmaceq
    unfold decrypt
    rw [hk', hc', hm']
    simp only [if_pos hmaceq]

/-- C5 witness: concrete key split and MAC agreement, evaluated on one record
whose MAC matches and one whose MAC does not. -/
theorem C5_witness :
    wRecord.crypto.ciphertext =
      hexOfBytes (ctrProcess mockP (sliceBytes (List.range 32) 0 16) wKey.iv
        [1, 2, 3]) ∧
    wRecord.crypto.mac =
      hexOfBytes (mockP.keccak256 (sliceBytes (List.range 32) 16 32 ++
        ctrProcess mockP (sliceBytes (List.range 32) 0 16) wKey.iv [1, 2, 3])) ∧
    (mockP.keccak256 (sliceBytes (List.range 32) 16 32 ++
      ctrProcess mockP (sliceBytes (List.range 32) 0 16) wKey.iv
        [1, 2, 3])).length = 32 ∧
    decrypt mockP wBadMacRecord wKey .asBytes = .error .corruptKeystore ∧
    decrypt mockP wRecord wKey .asBytes =
      .ok (.byteData
        (ctrProcess mockP (sliceBytes (List.range 32) 0 16) wKey.iv
          [1, 2, 3])) := by
  have h := C5_key_split_and_mac mockP [1, 2, 3] wKey [] (List.range 32)
    wRecord (by decide) (by decide) (by decide) mockP_block_good
    mockP_hash_good (by decide)
  refine ⟨h.1, h.2.1, h.2.2.1, ?_, ?_⟩
  · exact (h.2.2.2 wBadMacRecord wKey (List.range 32) [1, 2, 3]
      (List.replicate 32 7) .asBytes (by decide) (by decide) (by decide)).1.2
      (by decide)
  · exact (h.2.2.2 wRecord wKey (List.range 32) [1, 2, 3]
      (mockP.keccak256 (sliceBytes (List.range 32) 16 32 ++ [1, 2, 3]))
      .asBytes (by decide) (by decide) (by decide)).2 (by decide)

/-- C6: `pbkdf2` (iterations defaulting to 262144) yields a key whose
material is exactly 32 bytes and whose kdfparams are
`{c: iterations, dklen: 32, prf: 'hmac-sha256', salt: hex of the salt
consumed}`; `scrypt` (N defaulting to 262144) yields 32-byte material with
kdfparams `{n: N, r: 1, p: 8, dklen: 32, salt}` — `r` and `p` are literals
in the code and `ScryptOptions` offers no way to set them. -/
theorem C6_kdf_material_and_params (P : Primitives) (po : Pbkdf2Options)
    (so : ScryptOptions) (rs ri : List Nat)
    (hp : KdfGood32 P.pbkdf2Hash)
    (hs : ScryptGood32 P.scryptHash) :
    (pbkdf2 P po rs ri).kdf = "pbkdf2".toList ∧
    (pbkdf2 P po rs ri).kdfparams =
      .pbkdf2Params (po.iterations.getD 262144) 32 "hmac-sha256".toList
        (hexOfBytes (po.salt.getD rs)) ∧
    hexToBytes (pbkdf2 P po rs ri).keyHex =
      some (P.pbkdf2Hash po.password (po.salt.getD rs)
        (po.iterations.getD 262144) 32) ∧
    (P.pbkdf2Hash po.password (po.salt.getD rs)
      (po.iterations.getD 262144) 32).length = 32 ∧
    (scrypt P so rs ri).kdf = "scrypt".toList ∧
    (scrypt P so rs ri).kdfparams =
      .scryptParams 32 (so.n.getD 262144) 8 1 (hexOfBytes (so.salt.getD rs)) ∧
    hexToBytes (scrypt P so rs ri).keyHex =
      some (P.scryptHash so.password (so.salt.getD rs) (so.n.getD 262144)
        32 1 8) ∧
    (P.scryptHash so.password (so.salt.getD rs) (so.n.getD 262144)
      32 1 8).length = 32 := by
  refine ⟨rfl, rfl, ?_, (hp po.password (po.salt.getD rs)
      (po.iterations.getD 262144)).1, rfl, rfl, ?_,
    (hs so.password (so.salt.getD rs) (so.n.getD 262144) 1 8).1⟩
  · exact hexToBytes_hexOfBytes _ (hp po.password (po.salt.getD rs)
      (po.iterations.getD 262144)).2
  · exact hexToBytes_hexOfBytes _ (hs so.password (so.salt.getD rs)
      (so.n.getD 262144) 1 8).2

/-- C6 witness: concrete derivations with the mock KDF primitives. -/
theorem C6_witness :
    (pbkdf2 mockP ⟨none, none, [7], some [1]⟩ [2] [3]).kdf =
      "pbkdf2".toList ∧
    (pbkdf2 mockP ⟨none, none, [7], some [1]⟩ [2] [3]).kdfparams =
      .pbkdf2Params 262144 32 "hmac-sha256".toList (hexOfBytes [1]) ∧
    hexToBytes (pbkdf2 mockP ⟨none, none, [7], some [1]⟩ [2] [3]).keyHex =
      some (mockP.pbkdf2Hash [7] [1] 262144 32) ∧
    (mockP.pbkdf2Hash [7] [1] 262144 32).length = 32 ∧
    (scrypt mockP ⟨none, some 4, [7], none⟩ [2] [3]).kdf = "scrypt".toList ∧
    (scrypt mockP ⟨none, some 4, [7], none⟩ [2] [3]).kdfparams =
      .scryptParams 32 4 8 1 (hexOfBytes [2]) ∧
    hexToBytes (scrypt mockP ⟨none, some 4, [7], none⟩ [2] [3]).keyHex =
      some (mockP.scryptHash [7] [2] 4 32 1 8) ∧
    (mockP.scryptHash [7] [2] 4 32 1 8).length = 32 :=
  C6_kdf_material_and_params mockP ⟨none, none, [7], some [1]⟩
    ⟨none, some 4, [7], none⟩ [2] [3] mockP_kdf_good mockP_scrypt_good

/-- C7: with salt and iv supplied (identical inputs), the blocking and
non-blocking derivation variants produce identical `DerivedKey` values —
whatever the CSPRNG draws of either invocation would have been, the result is
the same; scheduling never changes the result. -/
theorem C7_sync_async_agree (P : Primitives) (po : Pbkdf2Options)
    (so : ScryptOptions) (rs ri rs' ri' s1 i1 s2 i2 : List Nat)
    (h1 : po.salt = some s1) (h2 : po.iv = some i1)
    (h3 : so.salt = some s2) (h4 : so.iv = some i2) :
    pbkdf2 P po rs ri = pbkdf2Async P po rs' ri' ∧
    scrypt P so rs ri = scryptAsync P so rs' ri' := by
  unfold pbkdf2 pbkdf2Async scrypt scryptAsync defineKey
  rw [h1, h2, h3, h4]
  exact ⟨rfl, rfl⟩

/-- C7 witness: concrete agreement of the variants under distinct CSPRNG
draws. -/
theorem C7_witness :
    pbkdf2 mockP ⟨some [9], some 2, [7], some [1]⟩ [2] [3] =
      pbkdf2Async mockP ⟨some [9], some 2, [7], some [1]⟩ [4] [5] ∧
    scrypt mockP ⟨some [9], some 2, [7], some [1]⟩ [2] [3] =
      scryptAsync mockP ⟨some [9], some 2, [7], some [1]⟩ [4] [5] :=
  C7_sync_async_agree mockP ⟨some [9], some 2, [7], some [1]⟩
    ⟨some [9], some 2, [7], some [1]⟩ [2] [3] [4] [5] [1] [9] [1] [9]
    rfl rfl rfl rfl

/-- Flip bit `j` of byte `i` of a byte string. -/
def flipBit (bs : List Nat) (i j : Nat) : List Nat :=
  bs.set i (bs.getD i 0 ^^^ 2 ^ j)

theorem getD_lt (bs : List Nat) (i : Nat) (h : ∀ b ∈ bs, b < 256) :
    bs.getD i 0 < 256 := by
  rcases Nat.lt_or_ge i bs.length with hlt | hge
  · rw [List.getD_eq_getElem bs 0 hlt]
    exact h _ (List.getElem_mem hlt)
  · rw [List.getD_eq_default bs 0 hge]
    omega

theorem flipBit_lt (bs : List Nat) (i j : Nat) (h : ∀ b ∈ bs, b < 256)
    (hj : j < 8) : ∀ b ∈ flipBit bs i j, b < 256 := by
  intro b hb
  rcases List.mem_or_eq_of_mem_set hb with h1 | h2
  · exact h b h1
  · subst h2
    have h28 : (2 : Nat) ^ 8 = 256 := rfl
    have := Nat.xor_lt_two_pow (n := 8) (by rw [h28]; exact getD_lt bs i h)
      (Nat.pow_lt_pow_right (by omega) hj)
    omega

theorem flipBit_ne (bs : List Nat) (i j : Nat) (hi : i < bs.length) :
    flipBit bs i j ≠ bs := by
  intro he
  have h2 := congrArg (fun l => l[i]?) he
  simp only [flipBit] at h2
  rw [List.getElem?_eq_getElem hi] at h2
  have h3 : (bs.set i (bs.getD i 0 ^^^ 2 ^ j))[i]? =
      some (bs.getD i 0 ^^^ 2 ^ j) := by
    simp [List.getElem?_set, hi]
  rw [h3] at h2
  have h4 : bs.getD i 0 = bs[i] := List.getD_eq_getElem bs 0 hi
  have h5 : bs.getD i 0 ^^^ 2 ^ j = bs[i] := Option.some.inj h2
  rw [h4] at h5
  have h6 : (2 : Nat) ^ j = 0 := by
    have h7 := congrArg (fun t => bs[i] ^^^ t) h5
    simp only [← Nat.xor_assoc, Nat.xor_self, Nat.zero_xor] at h7
    exact h7
  exact absurd h6 (by positivity)

/-- C8: flipping any single bit of the ciphertext bytes or of the mac bytes
of a keystore produced by `encrypt` makes `decrypt` under the same key fail
with the corrupt-keystore error (for the ciphertext case under the
collision-freeness of Keccak at the flipped pair, `hcol`); no altered
plaintext is ever returned. -/
theorem C8_tamper_detection (P : Primitives) (pk : List Nat)
    (key : DerivedKey) (id : List Char) (km : List Nat) (ks : Keystore)
    (i j : Nat) (as : OutputAs)
    (hk : hexToBytes key.keyHex = some km)
    (hkb : ∀ b ∈ km, b < 256)
    (hpk : ∀ b ∈ pk, b < 256)
    (hA : BlockGood P.aesBlock)
    (hH : HashGood P.keccak256)
    (henc : encrypt P pk key id = .ok ks)
    (hi : i < pk.length) (hj : j < 8)
    (hcol : P.keccak256 (sliceBytes km 16 32 ++
        flipBit (ctrProcess P (sliceBytes km 0 16) key.iv pk) i j) ≠
      P.keccak256 (sliceBytes km 16 32 ++
        ctrProcess P (sliceBytes km 0 16) key.iv pk)) :
    decrypt P
        { ks with crypto.ciphertext :=
                    hexOfBytes (flipBit
                      (ctrProcess P (sliceBytes km 0 16) key.iv pk) i j) }
        key as = .error .corruptKeystore ∧
    ∀ i' j', i' < 32 → j' < 8 →
      decrypt P
          { ks with crypto.mac :=
                      hexOfBytes (flipBit
                        (P.keccak256 (sliceBytes km 16 32 ++
                          ctrProcess P (sliceBytes km 0 16) key.iv pk)) i' j') }
          key as = .error .corruptKeystore := by
  unfold encrypt at henc
  rw [hk] at henc
  cases henc
  have hct : ∀ b ∈ ctrProcess P (sliceBytes km 0 16) key.iv pk, b < 256 :=
    ctrProcess_lt P hA _ _ pk hpk
  have hmacin :
      ∀ b ∈ sliceBytes km 16 32 ++ ctrProcess P (sliceBytes km 0 16) key.iv pk,
        b < 256 := by
    intro b hb
    rcases List.mem_append.1 hb with h1 | h2
    · exact hkb b (sliceBytes_subset km 16 32 b h1)
    · exact hct b h2
  constructor
  · unfold decrypt
    rw [hk]
    simp only
    rw [hexToBytes_hexOfBytes _ (flipBit_lt _ i j hct hj),
      hexToBytes_hexOfBytes _ (hH _ hmacin).2]
    simp only [if_neg hcol]
  · intro i' j' hi' hj'
    unfold decrypt
    rw [hk]
    simp only
    rw [hexToBytes_hexOfBytes _ hct,
      hexToBytes_hexOfBytes _ (flipBit_lt _ i' j' (hH _ hmacin).2 hj')]
    have hne : flipBit (P.keccak256 (sliceBytes km 16 32 ++
        ctrProcess P (sliceBytes km 0 16) key.iv pk)) i' j' ≠
        P.keccak256 (sliceBytes km 16 32 ++
          ctrProcess P (sliceBytes km 0 16) key.iv pk) :=
      flipBit_ne _ i' j' (by rw [(hH _ hmacin).1]; exact hi')
    have hcond : ¬(P.keccak256 (sliceBytes km 16 32 ++
        ctrProcess P (sliceBytes km 0 16) key.iv pk) =
          flipBit (P.keccak256 (sliceBytes km 16 32 ++
            ctrProcess P (sliceBytes km 0 16) key.iv pk)) i' j') :=
      fun he => hne he.symm
    simp only [if_neg hcond]

/-- C8 witness: flipping bit 1 of ciphertext byte 0, or bit 0 of mac byte 0,
of the concrete record makes decrypt fail with the corrupt-keystore error. -/
theorem C8_witness :
    decrypt mockP
        { wRecord with crypto.ciphertext :=
                         hexOfBytes (flipBit
                           (ctrProcess mockP (sliceBytes (List.range 32) 0 16)
                             wKey.iv [1, 2, 3]) 0 1) }
        wKey .asBytes = .error .corruptKeystore ∧
    decrypt mockP
        { wRecord with crypto.mac :=
                         hexOfBytes (flipBit
                           (mockP.keccak256 (sliceBytes (List.range 32) 16 32 ++
                             ctrProcess mockP (sliceBytes (List.range 32) 0 16)
                               wKey.iv [1, 2, 3])) 0 0) }
        wKey .asBytes = .error .corruptKeystore := by
  have h := C8_tamper_detection mockP [1, 2, 3] wKey [] (List.range 32)
    wRecord 0 1 .asBytes (by decide) (by decide) (by decide) mockP_block_good
    mockP_hash_good (by decide) (by decide) (by decide) (by decide)
  exact ⟨h.1, h.2 0 0 (by decide) (by decide)⟩

/-- A 17-byte iv (one byte too long). -/
def C9iv : List Nat := List.replicate 17 0

/-- The derived key returned by `pbkdf2` when the caller supplies the
17-byte iv. -/
def C9key : DerivedKey :=
  pbkdf2 mockP
    { iv := some C9iv, iterations := some 2, password := [1, 2],
      salt := some (List.replicate 32 0) }
    (List.replicate 32 0) (List.replicate 16 0)

/-- C9 counterexample: a derivation call given a 17-byte iv does not fail —
it returns a `DerivedKey` carrying that iv verbatim (`pbkdf2`/`defineKey`
perform no length validation, and their result type has no error case). -/
theorem C9_counterexample : C9key.iv = C9iv ∧ C9iv.length = 17 := by decide

/-- C9 (amended): a caller-supplied iv of any length is taken verbatim into
the returned `DerivedKey` by every derivation entry point — no input-length
check is performed at the call boundary. -/
theorem C9_iv_taken_verbatim (P : Primitives) (po : Pbkdf2Options)
    (so : ScryptOptions) (rs ri : List Nat) (iv1 iv2 : List Nat)
    (h1 : po.iv = some iv1) (h2 : so.iv = some iv2) :
    (pbkdf2 P po rs ri).iv = iv1 ∧
    (pbkdf2Async P po rs ri).iv = iv1 ∧
    (scrypt P so rs ri).iv = iv2 ∧
    (scryptAsync P so rs ri).iv = iv2 := by
  unfold pbkdf2 pbkdf2Async scrypt scryptAsync defineKey
  rw [h1, h2]
  exact ⟨rfl, rfl, rfl, rfl⟩

/-- C9 witness: the 17-byte iv flows verbatim through all four entry
points. -/
theorem C9_witness :
    (pbkdf2 mockP ⟨some C9iv, some 2, [1, 2], some (List.replicate 32 0)⟩
      (List.replicate 32 0) (List.replicate 16 0)).iv = C9iv ∧
    (pbkdf2Async mockP ⟨some C9iv, some 2, [1, 2], some (List.replicate 32 0)⟩
      (List.replicate 32 0) (List.replicate 16 0)).iv = C9iv ∧
    (scrypt mockP ⟨some C9iv, some 4, [1, 2], some (List.replicate 32 0)⟩
      (List.replicate 32 0) (List.replicate 16 0)).iv = C9iv ∧
    (scryptAsync mockP ⟨some C9iv, some 4, [1, 2], some (List.replicate 32 0)⟩
      (List.replicate 32 0) (List.replicate 16 0)).iv = C9iv :=
  C9_iv_taken_verbatim mockP
    ⟨some C9iv, some 2, [1, 2], some (List.replicate 32 0)⟩
    ⟨some C9iv, some 4, [1, 2], some (List.replicate 32 0)⟩
    (List.replicate 32 0) (List.replicate 16 0) C9iv C9iv rfl rfl

end OxKeystore
